import Mathlib

set_option maxRecDepth 100000

/-!
Shallow embedding of `volatility/framework/layers/lime.py`.

The source file defines `LimeLayer` (a segmented translation layer for the
LiME memory-capture container format) and `LimeStacker` (the format detector).
Bytes of the underlying base layer are modelled as a `List Nat` whose entries
are byte values; machine integers are `Nat` with explicit `% 2 ^ w` where the
decoding width matters.  Exceptions (`LimeFormatException`) are modelled with
`Except` over an explicit error datatype whose constructors carry the numeric
data appearing in the corresponding Python format strings.
-/

/-- Constant `LimeLayer.MAGIC`. -/
def MAGIC : Nat := 0x4c694d45

/-- Constant `LimeLayer.VERSION`. -/
def VERSION : Nat := 1

/-- Size `LimeLayer._header_struct.size` of `struct.Struct('<IIQQQ')`:
4 + 4 + 8 + 8 + 8 = 32 bytes (standard sizes, no padding). -/
def headerSize : Nat := 32

/-- Value of a little-endian byte list, as `struct.unpack` computes each
fixed-width field (least significant byte first). -/
def leVal : List Nat → Nat
  | [] => 0
  | b :: rest => b + 256 * leVal rest

/-- Little-endian encoding of `n` in `k` bytes (used to build concrete
sources; inverse of `leVal` modulo `256 ^ k`). -/
def leBytes : Nat → Nat → List Nat
  | 0, _ => []
  | k + 1, n => n % 256 :: leBytes k (n / 256)

/-- Modelled from the spec: the byte-source collaborator's
`read(offset, length)` (`base_layer.read` is not part of this repository's
source under `src/`).  Per §6 it returns the requested bytes and "must signal
a distinguishable 'out of range' error when the requested span exceeds
available data"; the error is modelled as `none`. -/
def readBytes (src : List Nat) (offset len : Nat) : Option (List Nat) :=
  if offset + len ≤ src.length then some ((src.drop offset).take len) else none

/-- Modelled from the spec: the byte-source collaborator's
`maximum_address` / "total extent" (§6, §4.2's `source_extent`), the bound of
the scan loop `while offset < base_maxaddr`. -/
def maximum_address (src : List Nat) : Nat := src.length

/-- The distinct `LimeFormatException` raise sites, named as in the spec's
error taxonomy; each constructor carries the values interpolated into the
corresponding Python message. -/
inductive LimeFormatError where
  | headerReadFailed (offset : Nat)
  | badMagic (magic offset : Nat)
  | unsupportedVersion (version offset : Nat)
  | badRange (start end_ offset : Nat)
  | emptyContainer
deriving DecidableEq, Repr

/-- One entry of the segment table: the tuple
`(start, offset + header_size, segment_length)` appended by
`_load_segments`. -/
structure Segment where
  mapped_start : Nat
  source_offset : Nat
  length : Nat
deriving DecidableEq, Repr

/-- Embedding of `LimeLayer._check_header`: read 32 bytes at `offset`, unpack
`<IIQQQ>` fields, validate magic and version, return `(start, end)`. -/
def checkHeader (src : List Nat) (offset : Nat) : Except LimeFormatError (Nat × Nat) :=
  match readBytes src offset headerSize with
  | none => .error (.headerReadFailed offset)
  | some header_data =>
    let magic := leVal (header_data.take 4)
    let version := leVal ((header_data.drop 4).take 4)
    let start := leVal ((header_data.drop 8).take 8)
    let end_ := leVal ((header_data.drop 16).take 8)
    if magic ≠ MAGIC then .error (.badMagic magic offset)
    else if version ≠ VERSION then .error (.unsupportedVersion version offset)
    else .ok (start, end_)

/-- The `while offset < base_maxaddr` loop of `LimeLayer._load_segments`,
with the local mutable state (`offset`, `maxaddr`, `segments`) made explicit
parameters.  `maxaddr` is the maximum address seen so far (initially `0`);
a raised `LimeFormatException` is the `.error` result. -/
def loadLoop (src : List Nat) (base_maxaddr offset maxaddr : Nat)
    (segments : List Segment) : Except LimeFormatError (List Segment) :=
  if h : offset < base_maxaddr then
    match checkHeader src offset with
    | .error e => .error e
    | .ok (start, end_) =>
      if start < maxaddr ∨ end_ < start then
        .error (.badRange start end_ offset)
      else
        loadLoop src base_maxaddr (offset + headerSize + (end_ - start + 1)) end_
          (segments ++ [⟨start, offset + headerSize, end_ - start + 1⟩])
  else
    .ok segments
termination_by base_maxaddr - offset
decreasing_by simp only [headerSize]; omega

/-- Embedding of `LimeLayer._load_segments` as a function from the base layer's bytes to
the segment table it stores (or the exception it raises): run the scan loop
from offset 0, then fail with `emptyContainer` if no segments were
collected. -/
def loadSegments (src : List Nat) : Except LimeFormatError (List Segment) :=
  match loadLoop src (maximum_address src) 0 0 [] with
  | .error e => .error e
  | .ok segments => if segments.length = 0 then .error .emptyContainer else .ok segments

/-- Possible outcomes of `LimeStacker.stack`: `notAccepted` is the `None`
return from the `except LimeFormatException` handler, `raised e` is an
exception escaping to the caller (from `LimeLayer.__init__`, which runs
`_load_segments`), and `layer segs` is a successfully constructed
`LimeLayer` holding segment table `segs`. -/
inductive StackResult where
  | notAccepted
  | raised (e : LimeFormatError)
  | layer (segments : List Segment)
deriving DecidableEq, Repr

/-- Embedding of `LimeStacker.stack`: probe a single header at offset 0, returning `None`
(`notAccepted`) on any `LimeFormatException` from the probe; on success,
construct a `LimeLayer`, whose `__init__` calls `_load_segments` outside any
handler, so a failure there escapes as an exception (`raised`). -/
def stack (src : List Nat) : StackResult :=
  match checkHeader src 0 with
  | .error _ => .notAccepted
  | .ok _ =>
    match loadSegments src with
    | .error e => .raised e
    | .ok segments => .layer segments

/-- The layer's stored segment-table attribute `self._segments`
(`none` while unassigned). -/
structure LimeLayerState where
  segments : Option (List Segment)
deriving DecidableEq, Repr

/-- Method `LimeLayer._load_segments` viewed as a state transformer on the layer:
the loop works only on locals, and `self._segments = segments` is the last
statement of the method, executed after the loop and the emptiness check; an
exception raised before it leaves the attribute untouched.  Returns the
post-state and the raised exception, if any. -/
def runLoadSegments (src : List Nat) (st : LimeLayerState) :
    LimeLayerState × Option LimeFormatError :=
  match loadSegments src with
  | .error e => (st, some e)
  | .ok segments => ({ segments := some segments }, none)

/-- Description of one segment of a container: the `start`/`end` fields its
header declares and the payload bytes following the header. -/
structure SegDesc where
  start : Nat
  end_ : Nat
  payload : List Nat
deriving DecidableEq, Repr

/-- The 32 bytes of a header with the given `start`/`end` fields, correct
magic and version, and a zero reserved field (§6 byte layout). -/
def encodeHeader (start end_ : Nat) : List Nat :=
  leBytes 4 MAGIC ++ (leBytes 4 VERSION ++ (leBytes 8 start ++ (leBytes 8 end_ ++ leBytes 8 0)))

/-- Bytes of one segment: its header followed by its payload. -/
def encodeDesc (d : SegDesc) : List Nat := encodeHeader d.start d.end_ ++ d.payload

/-- Bytes of a whole container: the segments laid out back to back from
offset 0 (§6: payload, "then (if more data remains) the next header"). -/
def encodeDescs : List SegDesc → List Nat
  | [] => []
  | d :: rest => encodeDesc d ++ encodeDescs rest

/-- Chaining accepted by the code's range check, relative to the maximum
address `m` seen so far: each header satisfies `m ≤ start` (the code rejects
only `start < maxaddr`, so a start equal to the previous end passes),
`start ≤ end`, fields fit in 64 bits, and the payload length matches
`end - start + 1`. -/
def chainOK : Nat → List SegDesc → Bool
  | _, [] => true
  | m, d :: rest =>
    decide (m ≤ d.start) && decide (d.start ≤ d.end_) && decide (d.end_ < 2 ^ 64)
      && decide (d.payload.length = d.end_ - d.start + 1) && chainOK d.end_ rest

/-- Strict well-formedness as the spec words it: like `chainOK` but each
later segment must start strictly after the previous segment's end. -/
def wellFormed : Nat → List SegDesc → Bool
  | _, [] => true
  | m, d :: rest =>
    decide (m ≤ d.start) && decide (d.start ≤ d.end_) && decide (d.end_ < 2 ^ 64)
      && decide (d.payload.length = d.end_ - d.start + 1) && wellFormed (d.end_ + 1) rest

/-- The segment table `_load_segments` is expected to build for a container
whose first header sits at file offset `offset`: the i-th entry maps the
i-th header's `start`, points just past that header, and has length
`end - start + 1`. -/
def expectedSegs (offset : Nat) : List SegDesc → List Segment
  | [] => []
  | d :: rest =>
    ⟨d.start, offset + headerSize, d.end_ - d.start + 1⟩ ::
      expectedSegs (offset + headerSize + (d.end_ - d.start + 1)) rest

/-- File offset of the i-th header: the lengths of the preceding
header/payload pairs. -/
def headerFileOffset (ds : List SegDesc) (i : Nat) : Nat :=
  ((ds.take i).map (fun d => headerSize + (d.end_ - d.start + 1))).sum

/-- A container holding one full valid segment (range `[0, 255]`, 256
payload bytes) followed by a single trailing byte, so that the probe at
offset 0 succeeds but the full scan hits an unreadable second header. -/
def trailingByteSrc : List Nat := encodeDesc ⟨0, 255, List.replicate 256 0⟩ ++ [0]

theorem length_leBytes (k n : Nat) : (leBytes k n).length = k := by
  induction k generalizing n with
  | zero => rfl
  | succ k ih => simp [leBytes, ih]

theorem leVal_leBytes (k n : Nat) : leVal (leBytes k n) = n % 256 ^ k := by
  induction k generalizing n with
  | zero => simp [leBytes, leVal, Nat.mod_one]
  | succ k ih => rw [leBytes, leVal, ih, pow_succ', Nat.mod_mul]

theorem length_encodeHeader (s e : Nat) : (encodeHeader s e).length = 32 := by
  simp [encodeHeader, length_leBytes]

theorem encodeHeader_magic_field (s e : Nat) :
    (encodeHeader s e).take 4 = leBytes 4 MAGIC := by
  unfold encodeHeader
  exact List.take_left' (length_leBytes 4 MAGIC)

theorem encodeHeader_version_field (s e : Nat) :
    ((encodeHeader s e).drop 4).take 4 = leBytes 4 VERSION := by
  unfold encodeHeader
  rw [List.drop_left' (length_leBytes 4 MAGIC)]
  exact List.take_left' (length_leBytes 4 VERSION)

theorem encodeHeader_start_field (s e : Nat) :
    ((encodeHeader s e).drop 8).take 8 = leBytes 8 s := by
  unfold encodeHeader
  rw [← List.append_assoc, List.drop_left' (by simp [length_leBytes])]
  exact List.take_left' (length_leBytes 8 s)

theorem encodeHeader_end_field (s e : Nat) :
    ((encodeHeader s e).drop 16).take 8 = leBytes 8 e := by
  unfold encodeHeader
  rw [← List.append_assoc, ← List.append_assoc, List.drop_left' (by simp [length_leBytes])]
  exact List.take_left' (length_leBytes 8 e)

theorem readBytes_append (pad l rest : List Nat) (h : l.length = 32) :
    readBytes (pad ++ (l ++ rest)) pad.length 32 = some l := by
  unfold readBytes
  rw [if_pos (by simp [h]), List.drop_left, List.take_left' h]

theorem checkHeader_encode (pad rest : List Nat) (s e : Nat)
    (hs : s < 2 ^ 64) (he : e < 2 ^ 64) :
    checkHeader (pad ++ (encodeHeader s e ++ rest)) pad.length = .ok (s, e) := by
  have hrb : readBytes (pad ++ (encodeHeader s e ++ rest)) pad.length 32 =
      some (encodeHeader s e) := readBytes_append _ _ _ (length_encodeHeader s e)
  unfold checkHeader headerSize
  rw [hrb]
  simp only [encodeHeader_magic_field, encodeHeader_version_field,
    encodeHeader_start_field, encodeHeader_end_field, leVal_leBytes]
  rw [show (256 : Nat) ^ 8 = 2 ^ 64 by norm_num]
  rw [Nat.mod_eq_of_lt hs, Nat.mod_eq_of_lt he]
  norm_num [MAGIC, VERSION]


theorem chainOK_mono (m k : Nat) (ds : List SegDesc) (hmk : m ≤ k)
    (h : chainOK k ds = true) : chainOK m ds = true := by
  cases ds with
  | nil => rfl
  | cons d rest =>
    simp only [chainOK, Bool.and_eq_true, decide_eq_true_eq] at h ⊢
    exact ⟨⟨⟨⟨le_trans hmk h.1.1.1.1, h.1.1.1.2⟩, h.1.1.2⟩, h.1.2⟩, h.2⟩

theorem wellFormed_chainOK (m : Nat) (ds : List SegDesc)
    (h : wellFormed m ds = true) : chainOK m ds = true := by
  induction ds generalizing m with
  | nil => rfl
  | cons d rest ih =>
    simp only [wellFormed, Bool.and_eq_true, decide_eq_true_eq] at h
    obtain ⟨⟨⟨⟨hm, hse⟩, he64⟩, hpl⟩, hrest⟩ := h
    have hr : chainOK d.end_ rest = true :=
      chainOK_mono _ _ _ (Nat.le_succ _) (ih (d.end_ + 1) hrest)
    simp only [chainOK, Bool.and_eq_true, decide_eq_true_eq]
    exact ⟨⟨⟨⟨hm, hse⟩, he64⟩, hpl⟩, hr⟩

theorem loadLoop_encode (ds : List SegDesc) (pad : List Nat) (m : Nat) (acc : List Segment)
    (h : chainOK m ds = true) :
    loadLoop (pad ++ encodeDescs ds) (pad ++ encodeDescs ds).length pad.length m acc
      = .ok (acc ++ expectedSegs pad.length ds) := by
  induction ds generalizing pad m acc with
  | nil =>
    unfold loadLoop
    simp [encodeDescs, expectedSegs]
  | cons d rest ih =>
    simp only [chainOK, Bool.and_eq_true, decide_eq_true_eq] at h
    obtain ⟨⟨⟨⟨hm, hse⟩, he64⟩, hpl⟩, hrest⟩ := h
    have hsrc : pad ++ encodeDescs (d :: rest)
        = pad ++ (encodeHeader d.start d.end_ ++ (d.payload ++ encodeDescs rest)) := by
      simp [encodeDescs, encodeDesc, List.append_assoc]
    have hck : checkHeader (pad ++ encodeDescs (d :: rest)) pad.length
        = .ok (d.start, d.end_) := by
      rw [hsrc]
      exact checkHeader_encode _ _ _ _ (lt_of_le_of_lt hse he64) he64
    have hlen : (pad ++ encodeDescs (d :: rest)).length
        = pad.length + (32 + d.payload.length + (encodeDescs rest).length) := by
      simp [encodeDescs, encodeDesc, length_encodeHeader]
      omega
    unfold loadLoop
    rw [dif_pos (by omega)]
    simp only [hck]
    rw [if_neg (by omega)]
    have hpad' : (pad ++ encodeDesc d).length = pad.length + headerSize + (d.end_ - d.start + 1) := by
      simp only [headerSize, List.length_append, encodeDesc, length_encodeHeader]
      omega
    have := ih (pad ++ encodeDesc d) d.end_
      (acc ++ [⟨d.start, pad.length + headerSize, d.end_ - d.start + 1⟩]) hrest
    rw [List.append_assoc] at this
    rw [hpad'] at this
    have hsame : encodeDesc d ++ encodeDescs rest = encodeDescs (d :: rest) := rfl
    rw [hsame] at this
    rw [this]
    simp [expectedSegs, List.append_assoc]

theorem loadLoop_exit (src : List Nat) (base_maxaddr offset maxaddr : Nat)
    (acc : List Segment) (h : ¬ offset < base_maxaddr) :
    loadLoop src base_maxaddr offset maxaddr acc = .ok acc := by
  unfold loadLoop
  rw [dif_neg h]

theorem loadLoop_error_step (src : List Nat) (base_maxaddr offset maxaddr : Nat)
    (acc : List Segment) (e : LimeFormatError) (hlt : offset < base_maxaddr)
    (hck : checkHeader src offset = .error e) :
    loadLoop src base_maxaddr offset maxaddr acc = .error e := by
  unfold loadLoop
  rw [dif_pos hlt]
  simp only [hck]

theorem loadLoop_badRange_step (src : List Nat) (base_maxaddr offset maxaddr s e : Nat)
    (acc : List Segment) (hlt : offset < base_maxaddr)
    (hck : checkHeader src offset = .ok (s, e)) (hr : s < maxaddr ∨ e < s) :
    loadLoop src base_maxaddr offset maxaddr acc = .error (.badRange s e offset) := by
  unfold loadLoop
  rw [dif_pos hlt]
  simp only [hck]
  rw [if_pos hr]

theorem loadLoop_ok_step (src : List Nat) (base_maxaddr offset maxaddr s e : Nat)
    (acc : List Segment) (hlt : offset < base_maxaddr)
    (hck : checkHeader src offset = .ok (s, e)) (hr : ¬ (s < maxaddr ∨ e < s)) :
    loadLoop src base_maxaddr offset maxaddr acc
      = loadLoop src base_maxaddr (offset + headerSize + (e - s + 1)) e
          (acc ++ [⟨s, offset + headerSize, e - s + 1⟩]) := by
  conv_lhs => rw [loadLoop]
  rw [dif_pos hlt]
  simp only [hck]
  rw [if_neg hr]

theorem expectedSegs_length (offset : Nat) (ds : List SegDesc) :
    (expectedSegs offset ds).length = ds.length := by
  induction ds generalizing offset with
  | nil => rfl
  | cons d rest ih => simp [expectedSegs, ih]

theorem loadSegments_encode (ds : List SegDesc) (h : chainOK 0 ds = true)
    (hne : ds ≠ []) : loadSegments (encodeDescs ds) = .ok (expectedSegs 0 ds) := by
  have hloop := loadLoop_encode ds [] 0 [] h
  simp only [List.nil_append, List.length_nil] at hloop
  unfold loadSegments maximum_address
  simp only [hloop]
  rw [if_neg (by simp [expectedSegs_length, hne, List.length_eq_zero])]

theorem checkHeader_short (src : List Nat) (offset : Nat)
    (h : src.length < offset + 32) :
    checkHeader src offset = .error (.headerReadFailed offset) := by
  unfold checkHeader headerSize readBytes
  rw [if_neg (by omega)]

theorem checkHeader_badMagic (src : List Nat) (h : 32 ≤ src.length)
    (hm : leVal (src.take 4) ≠ MAGIC) :
    checkHeader src 0 = .error (.badMagic (leVal (src.take 4)) 0) := by
  unfold checkHeader headerSize readBytes
  rw [if_pos (by omega)]
  simp only [List.drop_zero, List.take_take, show min 4 32 = 4 from by norm_num]
  rw [if_pos hm]

theorem checkHeader_badVersion (src : List Nat) (h : 32 ≤ src.length)
    (hm : leVal (src.take 4) = MAGIC) (hv : leVal ((src.drop 4).take 4) ≠ VERSION) :
    checkHeader src 0 = .error (.unsupportedVersion (leVal ((src.drop 4).take 4)) 0) := by
  unfold checkHeader headerSize readBytes
  rw [if_pos (by omega)]
  simp only [List.drop_zero, List.take_take, List.drop_take,
    show min 4 32 = 4 from by norm_num, show (32 : Nat) - 4 = 28 from by norm_num,
    show min 4 28 = 4 from by norm_num]
  rw [if_neg (by simpa using hm)]
  rw [if_pos hv]

theorem loadSegments_error_of_checkHeader (src : List Nat) (e : LimeFormatError)
    (h0 : 0 < src.length) (hck : checkHeader src 0 = .error e) :
    loadSegments src = .error e := by
  unfold loadSegments maximum_address
  rw [loadLoop_error_step src src.length 0 0 [] e h0 hck]

theorem loadSegments_nil : loadSegments [] = .error .emptyContainer := by
  unfold loadSegments maximum_address
  rw [loadLoop_exit [] _ 0 0 [] (by simp)]
  rfl

theorem headerFileOffset_zero (ds : List SegDesc) : headerFileOffset ds 0 = 0 := by
  simp [headerFileOffset]

theorem headerFileOffset_succ (d : SegDesc) (rest : List SegDesc) (i : Nat) :
    headerFileOffset (d :: rest) (i + 1)
      = headerSize + (d.end_ - d.start + 1) + headerFileOffset rest i := by
  simp [headerFileOffset, List.take]

theorem expectedSegs_get (ds : List SegDesc) (offset i : Nat) (hi : i < ds.length) :
    (expectedSegs offset ds).get ⟨i, by rw [expectedSegs_length]; exact hi⟩
      = ⟨(ds.get ⟨i, hi⟩).start,
         offset + headerFileOffset ds i + headerSize,
         (ds.get ⟨i, hi⟩).end_ - (ds.get ⟨i, hi⟩).start + 1⟩ := by
  induction ds generalizing offset i with
  | nil => exact absurd hi (by simp)
  | cons d rest ih =>
    cases i with
    | zero => simp [expectedSegs, headerFileOffset_zero]
    | succ i =>
      have hi' : i < rest.length := by simpa using hi
      have := ih (offset + headerSize + (d.end_ - d.start + 1)) i hi'
      simp only [expectedSegs, List.get_cons_succ, headerFileOffset_succ]
      rw [this]
      congr 1
      omega

theorem loadSegments_one :
    loadSegments (encodeDescs [⟨0, 255, List.replicate 256 0⟩]) = .ok [⟨0, 32, 256⟩] := by
  have h := loadSegments_encode [⟨0, 255, List.replicate 256 0⟩] (by decide) (by decide)
  simpa [expectedSegs, headerSize] using h

theorem checkHeader_trailingByteSrc : checkHeader trailingByteSrc 0 = .ok (0, 255) := rfl

theorem loadSegments_trailingByteSrc :
    loadSegments trailingByteSrc = .error (.headerReadFailed 288) := by
  unfold loadSegments maximum_address
  rw [show trailingByteSrc.length = 289 from rfl]
  rw [loadLoop_ok_step trailingByteSrc 289 0 0 0 255 [] (by norm_num)
    checkHeader_trailingByteSrc (by omega)]
  norm_num [headerSize]
  rw [loadLoop_error_step trailingByteSrc 289 288 255 [⟨0, 32, 256⟩]
    (.headerReadFailed 288) (by norm_num) (checkHeader_short _ 288 (by decide))]

/-- C4: any header whose decoded `end` field is strictly below its `start`
field makes the scan fail with `BadRange` at that header's offset — at any
loop state (regardless of how `start` compares to the maximum address seen),
and in particular for the first header of `build_index`. -/
theorem lime_C4_end_lt_start_badRange (src : List Nat)
    (base_maxaddr offset maxaddr s e : Nat) (acc : List Segment)
    (hck : checkHeader src offset = .ok (s, e)) (hes : e < s) :
    (offset < base_maxaddr →
      loadLoop src base_maxaddr offset maxaddr acc = .error (.badRange s e offset))
    ∧ (offset = 0 → 0 < src.length →
      loadSegments src = .error (.badRange s e 0)) := by
  constructor
  · intro hlt
    exact loadLoop_badRange_step src _ offset maxaddr s e acc hlt hck (Or.inr hes)
  · intro h0 hlen
    subst h0
    unfold loadSegments maximum_address
    rw [loadLoop_badRange_step src _ 0 0 s e [] hlen hck (Or.inr hes)]

/-- C4 witness: a single header declaring `start = 5`, `end = 3` fails with
`BadRange 5 3` at offset 0. -/
theorem lime_C4_witness :
    loadSegments (encodeHeader 5 3) = .error (.badRange 5 3 0) :=
  (lime_C4_end_lt_start_badRange (encodeHeader 5 3) 32 0 0 5 3 [] rfl
    (by norm_num)).2 rfl (by decide)

/-- C7: `_load_segments` assigns `self._segments` only after the whole scan
and the emptiness check succeed; on any raised format error the attribute is
left exactly as it was, and on success it holds the complete table. -/
theorem lime_C7_no_partial_table (src : List Nat) (st : LimeLayerState) :
    (∀ e, loadSegments src = .error e → runLoadSegments src st = (st, some e))
    ∧ (∀ segs, loadSegments src = .ok segs →
      runLoadSegments src st = (⟨some segs⟩, none)) := by
  constructor
  · intro e h
    unfold runLoadSegments
    simp only [h]
  · intro segs h
    unfold runLoadSegments
    simp only [h]

/-- C7 witness: building from an empty source fails (`EmptyContainer`) and a
previously stored table survives untouched. -/
theorem lime_C7_witness :
    runLoadSegments [] ⟨some [⟨1, 2, 3⟩]⟩ = (⟨some [⟨1, 2, 3⟩]⟩, some .emptyContainer) :=
  (lime_C7_no_partial_table [] ⟨some [⟨1, 2, 3⟩]⟩).1 .emptyContainer loadSegments_nil

/-- C8: if the scan loop terminates having collected no segments,
`_load_segments` raises `EmptyContainer`; consequently every successfully
built segment table is non-empty. -/
theorem lime_C8_emptyContainer (src : List Nat) :
    (loadLoop src (maximum_address src) 0 0 [] = .ok [] →
      loadSegments src = .error .emptyContainer)
    ∧ (∀ segs, loadSegments src = .ok segs → segs ≠ []) := by
  constructor
  · intro h
    unfold loadSegments
    simp only [h]
    rfl
  · intro segs h hnil
    subst hnil
    unfold loadSegments at h
    cases hl : loadLoop src (maximum_address src) 0 0 [] with
    | error e => rw [hl] at h; cases h
    | ok sgs =>
      rw [hl] at h
      by_cases hz : sgs.length = 0 <;> simp [hz] at h
      exact hz (by simp [h])

/-- C8 witness: the empty source collects zero segments and fails with
`EmptyContainer`; a concrete successful build yields a non-empty table. -/
theorem lime_C8_witness :
    loadSegments [] = .error .emptyContainer
    ∧ ([⟨0, 32, 256⟩] : List Segment) ≠ [] := by
  constructor
  · exact (lime_C8_emptyContainer []).1 (loadLoop_exit [] _ 0 0 [] (by simp [maximum_address]))
  · exact (lime_C8_emptyContainer (encodeDescs [⟨0, 255, List.replicate 256 0⟩])).2
      [⟨0, 32, 256⟩] loadSegments_one

/-- C9: a source long enough for one header whose first 4 bytes decode to the
magic constant but whose version field is not 1 makes `build_index` fail with
`UnsupportedVersion` carrying that version, at offset 0. -/
theorem lime_C9_unsupportedVersion (src : List Nat) (h32 : 32 ≤ src.length)
    (hm : leVal (src.take 4) = MAGIC) (hv : leVal ((src.drop 4).take 4) ≠ VERSION) :
    loadSegments src = .error (.unsupportedVersion (leVal ((src.drop 4).take 4)) 0) :=
  loadSegments_error_of_checkHeader _ _ (by omega) (checkHeader_badVersion src h32 hm hv)

/-- C9 witness: correct magic, version field 2 → `UnsupportedVersion 2` at
offset 0. -/
theorem lime_C9_witness :
    loadSegments (leBytes 4 MAGIC ++ (leBytes 4 2 ++ List.replicate 24 0))
      = .error (.unsupportedVersion 2 0) := by
  have h := lime_C9_unsupportedVersion (leBytes 4 MAGIC ++ (leBytes 4 2 ++ List.replicate 24 0))
    (by decide) (by decide) (by decide)
  simpa using h

/-- C1 counterexample: the spec's own scenario — segment `[0, 255]` followed
by a segment `[255, 511]` whose start equals the previous end — is accepted
by `_load_segments` (the check is `start < maxaddr`, so equality passes);
`build_index` returns both segments and does not raise `BadRange`. -/
theorem lime_C1_counterexample :
    loadSegments (encodeDescs [⟨0, 255, List.replicate 256 0⟩, ⟨255, 511, List.replicate 257 0⟩])
      = .ok [⟨0, 32, 256⟩, ⟨255, 320, 257⟩]
    ∧ loadSegments (encodeDescs [⟨0, 255, List.replicate 256 0⟩, ⟨255, 511, List.replicate 257 0⟩])
      ≠ .error (.badRange 255 511 288)
    ∧ loadSegments (encodeDescs [⟨0, 255, List.replicate 256 0⟩, ⟨255, 511, List.replicate 257 0⟩])
      ≠ .error (.badRange 255 511 284) := by
  have h := loadSegments_encode [⟨0, 255, List.replicate 256 0⟩, ⟨255, 511, List.replicate 257 0⟩]
    (by decide) (by decide)
  have he : expectedSegs 0 [⟨0, 255, (List.replicate 256 0 : List Nat)⟩, ⟨255, 511, List.replicate 257 0⟩]
      = [⟨0, 32, 256⟩, ⟨255, 320, 257⟩] := by decide
  rw [he] at h
  refine ⟨h, ?_, ?_⟩ <;> rw [h] <;> intro hc <;> cases hc

/-- C1 amended: for two consecutive headers where the second segment's start
address equals the previous segment's end address (and both ranges are
otherwise well-formed), `build_index` does not fail: only `start` strictly
below the previous end is rejected with `BadRange`, and both segments are
returned. -/
theorem lime_C1_amended (s1 e1 s2 e2 : Nat) (p1 p2 : List Nat)
    (h1 : s1 ≤ e1) (heq : s2 = e1) (h2 : s2 ≤ e2)
    (he1 : e1 < 2 ^ 64) (he2 : e2 < 2 ^ 64)
    (hp1 : p1.length = e1 - s1 + 1) (hp2 : p2.length = e2 - s2 + 1) :
    loadSegments (encodeDescs [⟨s1, e1, p1⟩, ⟨s2, e2, p2⟩])
      = .ok [⟨s1, 32, e1 - s1 + 1⟩, ⟨s2, 32 + (e1 - s1 + 1) + 32, e2 - s2 + 1⟩] := by
  have hc : chainOK 0 [⟨s1, e1, p1⟩, ⟨s2, e2, p2⟩] = true := by
    simp only [chainOK, Bool.and_eq_true, decide_eq_true_eq]
    exact ⟨⟨⟨⟨Nat.zero_le _, h1⟩, he1⟩, hp1⟩, ⟨⟨⟨le_of_eq heq.symm, h2⟩, he2⟩, hp2⟩, trivial⟩
  have h := loadSegments_encode [⟨s1, e1, p1⟩, ⟨s2, e2, p2⟩] hc (by simp)
  rw [h]
  simp [expectedSegs, headerSize]

/-- C1 amended witness: the concrete equal-boundary container. -/
theorem lime_C1_witness :
    loadSegments (encodeDescs [⟨0, 255, List.replicate 256 0⟩, ⟨255, 500, List.replicate 246 0⟩])
      = .ok [⟨0, 32, 256⟩, ⟨255, 320, 246⟩] := by
  have h := lime_C1_amended 0 255 255 500 (List.replicate 256 0) (List.replicate 246 0)
    (by norm_num) rfl (by norm_num) (by norm_num) (by norm_num) (by decide) (by decide)
  simpa using h

/-- C2 counterexample: the spec's single-segment scenario (header for
`[0, 255]` plus 256 payload bytes).  `build_index` succeeds, but the
segment's `source_offset` is 32 (the real header size of `<IIQQQ>`),
not 28 as the claim states. -/
theorem lime_C2_counterexample :
    loadSegments (encodeDescs [⟨0, 255, List.replicate 256 0⟩]) = .ok [⟨0, 32, 256⟩]
    ∧ loadSegments (encodeDescs [⟨0, 255, List.replicate 256 0⟩]) ≠ .ok [⟨0, 28, 256⟩] := by
  refine ⟨loadSegments_one, ?_⟩
  rw [loadSegments_one]
  intro hc
  simp at hc

/-- C2 amended: for every container of N well-formed, strictly-chained
segments (valid 32-byte headers, correct magic and version, strictly
increasing non-overlapping ranges, payload of exactly `end - start + 1`
bytes), `build_index` returns exactly N segments in input order; the i-th
has `mapped_start` equal to the i-th header's `start` field,
`source_offset` equal to that header's file offset plus 32, and `length`
equal to `end - start + 1`. -/
theorem lime_C2_amended (ds : List SegDesc) (h : wellFormed 0 ds = true)
    (hne : ds ≠ []) :
    loadSegments (encodeDescs ds) = .ok (expectedSegs 0 ds)
    ∧ (expectedSegs 0 ds).length = ds.length
    ∧ ∀ i (hi : i < ds.length),
        (expectedSegs 0 ds).get ⟨i, by rw [expectedSegs_length]; exact hi⟩
          = ⟨(ds.get ⟨i, hi⟩).start, headerFileOffset ds i + headerSize,
             (ds.get ⟨i, hi⟩).end_ - (ds.get ⟨i, hi⟩).start + 1⟩ := by
  refine ⟨loadSegments_encode ds (wellFormed_chainOK 0 ds h) hne,
    expectedSegs_length 0 ds, ?_⟩
  intro i hi
  have h := expectedSegs_get ds 0 i hi
  simpa using h

/-- C2 amended witness: the spec's concrete single-segment scenario yields
one segment `mapped_start = 0`, `source_offset = 32`, `length = 256`. -/
theorem lime_C2_witness :
    loadSegments (encodeDescs [⟨0, 255, List.replicate 256 0⟩]) = .ok [⟨0, 32, 256⟩] := by
  have h := (lime_C2_amended [⟨0, 255, List.replicate 256 0⟩] (by decide) (by decide)).1
  simpa [expectedSegs, headerSize] using h

/-- C3: `LimeStacker.stack` returns the not-accepted outcome (`None`)
exactly when the single-header probe at offset 0 raises (read failure, bad
magic or wrong version); if the probe accepts but the full index build
fails, the failure escapes to the caller as an exception, and if the build
succeeds the constructed layer is returned. -/
theorem lime_C3_stack_outcomes (src : List Nat) :
    (stack src = .notAccepted ↔ ∃ e, checkHeader src 0 = .error e)
    ∧ (∀ p e, checkHeader src 0 = .ok p → loadSegments src = .error e →
      stack src = .raised e)
    ∧ (∀ p segs, checkHeader src 0 = .ok p → loadSegments src = .ok segs →
      stack src = .layer segs) := by
  refine ⟨?_, ?_, ?_⟩
  · unfold stack
    cases hck : checkHeader src 0 with
    | error e => simp [hck]
    | ok p => cases hls : loadSegments src <;> simp [hck, hls]
  · intro p e hck hls
    unfold stack
    simp only [hck, hls]
  · intro p segs hck hls
    unfold stack
    simp only [hck, hls]

/-- C3 witness: a source with one valid segment plus one trailing byte is
accepted by the probe, but the full build fails reading the second header at
offset 288, and that error escapes `stack` as an exception rather than a
`None` return. -/
theorem lime_C3_witness :
    stack trailingByteSrc = .raised (.headerReadFailed 288) :=
  (lime_C3_stack_outcomes trailingByteSrc).2.1 (0, 255) (.headerReadFailed 288)
    checkHeader_trailingByteSrc loadSegments_trailingByteSrc

/-- C5 counterexample: the 4-byte source `[0, 0, 0, 0]` has a non-magic
first word, and the detector rejects it, but `build_index` fails with
`HeaderReadFailed`, not `BadMagic`, because the 32-byte header read fails
before the magic is ever examined. -/
theorem lime_C5_counterexample :
    leVal (([0, 0, 0, 0] : List Nat).take 4) ≠ MAGIC
    ∧ loadSegments [0, 0, 0, 0] = .error (.headerReadFailed 0)
    ∧ loadSegments [0, 0, 0, 0] ≠ .error (.badMagic 0 0)
    ∧ stack [0, 0, 0, 0] = .notAccepted := by
  have h := loadSegments_error_of_checkHeader [0, 0, 0, 0] (.headerReadFailed 0)
    (by norm_num) (checkHeader_short [0, 0, 0, 0] 0 (by norm_num))
  refine ⟨by decide, h, ?_, rfl⟩
  rw [h]
  intro hc
  cases hc

/-- C5 amended: for every source of at least 32 bytes (one full header)
whose first 4 bytes, read as a little-endian uint32, differ from the magic
constant, the detector rejects the source without raising, and
`build_index` fails with `BadMagic` carrying that value. -/
theorem lime_C5_amended (src : List Nat) (h32 : 32 ≤ src.length)
    (hm : leVal (src.take 4) ≠ MAGIC) :
    stack src = .notAccepted
    ∧ loadSegments src = .error (.badMagic (leVal (src.take 4)) 0) := by
  have hck := checkHeader_badMagic src h32 hm
  constructor
  · unfold stack
    simp only [hck]
  · exact loadSegments_error_of_checkHeader _ _ (by omega) hck

/-- C5 amended witness: 32 zero bytes decode magic 0, which is rejected by
the detector and fails the build with `BadMagic 0` at offset 0. -/
theorem lime_C5_witness :
    stack (List.replicate 32 0) = .notAccepted
    ∧ loadSegments (List.replicate 32 0) = .error (.badMagic 0 0) := by
  have h := lime_C5_amended (List.replicate 32 0) (by decide) (by decide)
  simpa using h

/-- C6 counterexample: on the empty source the scan loop never runs (the
loop bound is 0), so `build_index` fails with `EmptyContainer`, not with
`HeaderReadFailed` as the claim states. -/
theorem lime_C6_counterexample :
    loadSegments [] = .error .emptyContainer
    ∧ loadSegments [] ≠ .error (.headerReadFailed 0) := by
  refine ⟨loadSegments_nil, ?_⟩
  rw [loadSegments_nil]
  intro hc
  cases hc

/-- C6 amended: a non-empty source shorter than one 32-byte header fails
`build_index` with `HeaderReadFailed` at offset 0, while the empty source
fails with `EmptyContainer` (its scan loop never executes); the detector
rejects every source shorter than one header. -/
theorem lime_C6_amended (src : List Nat) (hshort : src.length < 32) :
    stack src = .notAccepted
    ∧ (0 < src.length → loadSegments src = .error (.headerReadFailed 0))
    ∧ (src = [] → loadSegments src = .error .emptyContainer) := by
  have hck := checkHeader_short src 0 (by omega)
  refine ⟨?_, ?_, ?_⟩
  · unfold stack
    simp only [hck]
  · intro h0
    exact loadSegments_error_of_checkHeader _ _ h0 hck
  · intro h
    subst h
    exact loadSegments_nil

/-- C6 amended witness: the 3-byte source is rejected by the detector and
fails the build with `HeaderReadFailed` at offset 0. -/
theorem lime_C6_witness :
    stack [1, 2, 3] = .notAccepted
    ∧ loadSegments [1, 2, 3] = .error (.headerReadFailed 0) := by
  have h := lime_C6_amended [1, 2, 3] (by norm_num)
  exact ⟨h.1, h.2.1 (by norm_num)⟩

/-- C10 counterexample: a source that is exactly a 28-byte prefix with
correct magic and version is not accepted by the probe: `_check_header`
reads 32 bytes (the real `<IIQQQ>` size), so the read fails and the probe
raises `HeaderReadFailed` instead of returning `(start, end)`. -/
theorem lime_C10_counterexample :
    (leBytes 4 MAGIC ++ (leBytes 4 VERSION ++ List.replicate 20 0)).length = 28
    ∧ leVal ((leBytes 4 MAGIC ++ (leBytes 4 VERSION ++ List.replicate 20 0)).take 4) = MAGIC
    ∧ leVal (((leBytes 4 MAGIC ++ (leBytes 4 VERSION ++ List.replicate 20 0)).drop 4).take 4)
      = VERSION
    ∧ checkHeader (leBytes 4 MAGIC ++ (leBytes 4 VERSION ++ List.replicate 20 0)) 0
      = .error (.headerReadFailed 0) :=
  ⟨by decide, by decide, by decide, rfl⟩

/-- C10 amended: the single-header probe validates only the magic and
version fields of the 32 bytes it reads: whenever the 32-byte read at
`offset` succeeds and those two fields are correct, it returns the decoded
`(start, end)` pair unchanged, with no constraint on `start` or `end`
(in particular even when `end < start`). -/
theorem lime_C10_amended (src : List Nat) (offset : Nat) (hd : List Nat)
    (hrb : readBytes src offset 32 = some hd)
    (hm : leVal (hd.take 4) = MAGIC) (hv : leVal ((hd.drop 4).take 4) = VERSION) :
    checkHeader src offset
      = .ok (leVal ((hd.drop 8).take 8), leVal ((hd.drop 16).take 8)) := by
  unfold checkHeader headerSize
  simp only [hrb]
  rw [if_neg (by simp [hm])]
  rw [if_neg (by simp [hv])]

/-- C10 amended witness: a header declaring the inverted range
`start = 5, end = 3` is accepted by the probe and returned unchanged. -/
theorem lime_C10_witness :
    checkHeader (encodeHeader 5 3) 0 = .ok (5, 3) := by
  have h := lime_C10_amended (encodeHeader 5 3) 0 (encodeHeader 5 3) rfl
    (by decide) (by decide)
  simpa using h
